import Mathlib

namespace Qwen

/-- Whitespace predicate backing the model of the JavaScript string method
named trim, restricted to the whitespace characters relevant here. -/
def isWsChar (c : Char) : Bool := c == ' ' || c == '\n' || c == '\t' || c == '\r'

/-- Model of the JavaScript expression trimming a line on both ends. -/
def trim (l : List Char) : List Char :=
  ((l.dropWhile isWsChar).reverse.dropWhile isWsChar).reverse

/-- Model of the JavaScript startsWith string method: first argument is the
string, second the candidate leading pattern. -/
def strStartsWith : List Char → List Char → Bool
  | _, [] => true
  | [], _ :: _ => false
  | c :: cs, d :: ds => c == d && strStartsWith cs ds

/-- Model of the JavaScript includes string method (substring containment). -/
def strContains : List Char → List Char → Bool
  | [], pat => strStartsWith [] pat
  | c :: cs, pat => strStartsWith (c :: cs) pat || strContains cs pat

/-- The literal SSE line marker written as data followed by a colon and a
space, used by every variant of the gateway. -/
def dataColon : List Char := "data: ".toList

/-- Two newline characters terminating every emitted SSE frame. -/
def nl2 : List Char := "\n\n".toList

/-- The literal terminal sentinel payload. -/
def doneLit : List Char := "[DONE]".toList

/-- The content type fragment that classifies an upstream error page. -/
def htmlChars : List Char := "text/html".toList

/-- The required leading pattern of the Authorization header. -/
def bearerLit : List Char := "Bearer ".toList

/-- The index loop of getIncrementalContent (src/v1.ts lines 41 to 47): the
scan that advances i while both strings agree, which computes the length of
the longest common prefix of the two strings. -/
def lcpLoop : List Char → List Char → Nat
  | a :: as, b :: bs => if a == b then lcpLoop as bs + 1 else 0
  | _, _ => 0

/-- getIncrementalContent from src/v1.ts lines 41 to 47: return the slice of
current starting at the index where the common prefix scan stopped. -/
def getIncrementalContent (previous current : List Char) : List Char :=
  current.drop (lcpLoop previous current)

/-- The inline delta normalizer of processLine in src/main.ts lines 84 to 89
(identical in src/v1-file.ts lines 153 to 159 and src/unnamed/part_000 lines
70 to 75): slice off the previous content only when current starts with it
and the previous content is nonempty, otherwise keep current whole. -/
def newContentOf (previousContent currentContent : List Char) : List Char :=
  if strStartsWith currentContent previousContent && decide (0 < previousContent.length)
  then currentContent.drop previousContent.length
  else currentContent

/-- Model of splitting an accumulated text on the newline character, as the
JavaScript split method does: the result always has at least one element and
the last element is the trailing segment after the final newline. -/
def splitNl : List Char → List (List Char)
  | [] => [[]]
  | c :: cs =>
    if c == '\n' then [] :: splitNl cs
    else (c :: (splitNl cs).headD []) :: (splitNl cs).tail

/-- One frame buffer step on already decoded text, from src/main.ts lines
146 to 149 (the same split and retain logic appears in src/v1.ts lines 74
to 78, src/v1-file.ts lines 216 to 219 and src/unnamed/part_000 lines 130
to 134): append the decoded chunk to the buffer, split on newlines, hand
out all complete lines and retain the trailing segment as the new buffer.
How the bytes become text differs per variant: src/main.ts, src/v1.ts and
src/v1-file.ts decode with one streaming text decoder, so their byte
chunking induces a chunking of the decoded text, while src/unnamed/part_000
decodes each chunk with a fresh non-streaming decoder, modelled separately
by utf8Decode below. -/
def feed (buf chunk : List Char) : List (List Char) × List Char :=
  ((splitNl (buf ++ chunk)).dropLast, (splitNl (buf ++ chunk)).getLastD [])

/-- Folding the frame buffer over a sequence of chunks, accumulating the
complete lines produced in order. -/
def feedMany (buf : List Char) : List (List Char) → List (List Char) × List Char
  | [] => ([], buf)
  | c :: cs =>
    ((feed buf c).1 ++ (feedMany (feed buf c).2 cs).1, (feedMany (feed buf c).2 cs).2)

/-- Concatenation of a list of chunks into a single chunk. -/
def joinAll : List (List Char) → List Char
  | [] => []
  | c :: cs => c ++ joinAll cs

/-- Concatenation of a list of byte chunks into a single byte sequence. -/
def joinAllB : List (List Nat) → List Nat
  | [] => []
  | c :: cs => c ++ joinAllB cs

/-- A UTF-8 continuation byte, in the range 0x80 to 0xBF. -/
def isContByte (b : Nat) : Bool := decide (0x80 ≤ b) && decide (b < 0xC0)

/-- The replacement character the platform text decoder emits for malformed
input. -/
def replChar : Char := Char.ofNat 0xFFFD

/-- Lower bound of the first continuation byte after a UTF-8 lead byte, per
the platform decoder: 0xA0 after the lead 0xE0, 0x90 after the lead 0xF0,
0x80 otherwise. -/
def cont1Lo (b : Nat) : Nat := if b = 0xE0 then 0xA0 else if b = 0xF0 then 0x90 else 0x80

/-- Upper bound of the first continuation byte after a UTF-8 lead byte, per
the platform decoder: 0x9F after the lead 0xED, 0x8F after the lead 0xF4,
0xBF otherwise. -/
def cont1Hi (b : Nat) : Nat := if b = 0xED then 0x9F else if b = 0xF4 then 0x8F else 0xBF

/-- Model of one whole call of the platform UTF-8 text decoder in its
default non-streaming, non-fatal mode, as src/unnamed/part_000 line 129
performs on every chunk: well-formed sequences decode to their code point;
a malformed or truncated sequence yields one replacement character and
decoding resumes at the first unconsumed byte, so a multi-byte character
split across two calls becomes replacement characters instead of the
character. -/
def utf8Decode : List Nat → List Char
  | [] => []
  | b :: bs =>
    if decide (b < 0x80) then Char.ofNat b :: utf8Decode bs
    else if decide (0xC2 ≤ b) && decide (b ≤ 0xDF) then
      match bs with
      | [] => [replChar]
      | c1 :: rest =>
        if isContByte c1 then
          Char.ofNat ((b - 0xC0) * 0x40 + (c1 - 0x80)) :: utf8Decode rest
        else replChar :: utf8Decode (c1 :: rest)
    else if decide (0xE0 ≤ b) && decide (b ≤ 0xEF) then
      match bs with
      | [] => [replChar]
      | c1 :: bs1 =>
        if decide (cont1Lo b ≤ c1) && decide (c1 ≤ cont1Hi b) then
          match bs1 with
          | [] => [replChar]
          | c2 :: rest =>
            if isContByte c2 then
              Char.ofNat ((b - 0xE0) * 0x1000 + (c1 - 0x80) * 0x40 + (c2 - 0x80)) ::
                utf8Decode rest
            else replChar :: utf8Decode (c2 :: rest)
        else replChar :: utf8Decode (c1 :: bs1)
    else if decide (0xF0 ≤ b) && decide (b ≤ 0xF4) then
      match bs with
      | [] => [replChar]
      | c1 :: bs1 =>
        if decide (cont1Lo b ≤ c1) && decide (c1 ≤ cont1Hi b) then
          match bs1 with
          | [] => [replChar]
          | c2 :: bs2 =>
            if isContByte c2 then
              match bs2 with
              | [] => [replChar]
              | c3 :: rest =>
                if isContByte c3 then
                  Char.ofNat ((b - 0xF0) * 0x40000 + (c1 - 0x80) * 0x1000 +
                    (c2 - 0x80) * 0x40 + (c3 - 0x80)) :: utf8Decode rest
                else replChar :: utf8Decode (c3 :: rest)
            else replChar :: utf8Decode (c2 :: bs2)
        else replChar :: utf8Decode (c1 :: bs1)
    else replChar :: utf8Decode bs

/-- The per-chunk byte pipeline of handleStream in src/unnamed/part_000
lines 129 to 134: every byte chunk is decoded by a fresh non-streaming text
decoder, and the decoded text is fed through the frame buffer. -/
def feedManyBytesP0 (chunks : List (List Nat)) : List (List Char) × List Char :=
  feedMany [] (chunks.map utf8Decode)

/-- The one-chunk reference of the same pipeline: decode the whole byte
sequence in one call and feed it to the frame buffer as one chunk. -/
def feedBytesOnce (bs : List Nat) : List (List Char) × List Char :=
  feed [] (utf8Decode bs)

/-- Abstract shape of one parsed SSE JSON payload, as the stream handlers
inspect it: the optional string at choices[0].delta.content, the optional
string at choices[0].delta.role, and an opaque tag standing for every other
field of the object. The JSON parser and serializer of the platform are
passed as oracle functions wherever they are used. -/
structure DataVal where
  content : Option (List Char)
  role : Option (List Char)
  tag : Nat
deriving DecidableEq

/-- processLine from src/main.ts lines 73 to 115 (the same logic appears in
src/v1-file.ts lines 141 to 185): parse the payload after the data marker;
on a payload carrying truthy delta content, normalize it and emit a frame
only when the normalized content is nonempty, returning the full current
cumulative content as the new normalizer state; on other payloads re-emit
the serialized payload; on parse failure write the raw line verbatim. The
first component of the result lists the frames written, the second is the
value the caller stores as previousContent. -/
def processLine (parse : List Char → Option DataVal) (stringify : DataVal → List Char)
    (line previousContent : List Char) : List (List Char) × List Char :=
  match parse (line.drop 6) with
  | some d =>
    match d.content with
    | some c =>
      if c ≠ [] then
        (if newContentOf previousContent c ≠ [] then
          [dataColon ++ stringify { d with content := some (newContentOf previousContent c) } ++ nl2]
        else [], c)
      else ([dataColon ++ stringify d ++ nl2], previousContent)
    | none => ([dataColon ++ stringify d ++ nl2], previousContent)
  | none => ([line ++ nl2], previousContent)

/-- The caller side state update of src/main.ts lines 153 to 156: the loop
keeps the returned value only when it is truthy. -/
def nextPrev (result previousContent : List Char) : List Char :=
  if result ≠ [] then result else previousContent

/-- The per-line loop of handleStream in src/main.ts lines 151 to 158:
process each line whose trimmed form starts with the data marker, threading
the previousContent state, and collect every frame written in order. -/
def handleLines (parse : List Char → Option DataVal) (stringify : DataVal → List Char) :
    List Char → List (List Char) → List (List Char) × List Char
  | previousContent, [] => ([], previousContent)
  | previousContent, l :: ls =>
    if strStartsWith (trim l) dataColon then
      ((processLine parse stringify l previousContent).1 ++
        (handleLines parse stringify
          (nextPrev (processLine parse stringify l previousContent).2 previousContent) ls).1,
        (handleLines parse stringify
          (nextPrev (processLine parse stringify l previousContent).2 previousContent) ls).2)
    else handleLines parse stringify previousContent ls

/-- processLine from src/unnamed/part_000 lines 65 to 102: identical to the
src/main.ts version except that in the content-bearing branch the rebuilt
frame is written unconditionally, with no emptiness check on the normalized
content. -/
def processLineP0 (parse : List Char → Option DataVal) (stringify : DataVal → List Char)
    (line previousContent : List Char) : List (List Char) × List Char :=
  match parse (line.drop 6) with
  | some d =>
    match d.content with
    | some c =>
      if c ≠ [] then
        ([dataColon ++ stringify { d with content := some (newContentOf previousContent c) } ++ nl2], c)
      else ([dataColon ++ stringify d ++ nl2], previousContent)
    | none => ([dataColon ++ stringify d ++ nl2], previousContent)
  | none => ([line ++ nl2], previousContent)

/-- The branch of streamResponse in src/v1.ts lines 119 to 122 for payloads
without truthy delta content: forward the parsed payload only when it
carries a truthy role, otherwise emit nothing. -/
def v1NoContent (stringify : DataVal → List Char) (dv : DataVal)
    (previousContent : List Char) : List (List Char) × List Char :=
  match dv.role with
  | some r =>
    if r ≠ [] then ([dataColon ++ stringify dv ++ nl2], previousContent)
    else ([], previousContent)
  | none => ([], previousContent)

/-- The parsed-payload handling of streamResponse in src/v1.ts lines 94 to
125: on truthy delta content compute the incremental content; only when it
is nonempty, emit a frame whose delta holds just the increment and update
previousContent to the current cumulative content; otherwise emit nothing
and leave previousContent unchanged. -/
def v1HandleData (stringify : DataVal → List Char) (dv : DataVal)
    (previousContent : List Char) : List (List Char) × List Char :=
  match dv.content with
  | some c =>
    if c ≠ [] then
      if getIncrementalContent previousContent c ≠ [] then
        ([dataColon ++
          stringify { dv with content := some (getIncrementalContent previousContent c), role := none } ++ nl2], c)
      else ([], previousContent)
    else v1NoContent stringify dv previousContent
  | none => v1NoContent stringify dv previousContent

/-- One iteration of the line loop of streamResponse in src/v1.ts lines 80
to 126: skip blank lines and lines without the data marker, pass the
sentinel through, and on a payload that fails to parse emit nothing (the
source only logs the parse error). -/
def v1HandleLine (parse : List Char → Option DataVal) (stringify : DataVal → List Char)
    (line previousContent : List Char) : List (List Char) × List Char :=
  if trim line = [] then ([], previousContent)
  else if strStartsWith line dataColon = false then ([], previousContent)
  else if line.drop 6 = doneLit then ([dataColon ++ doneLit ++ nl2], previousContent)
  else
    match parse (line.drop 6) with
    | none => ([], previousContent)
    | some dv => v1HandleData stringify dv previousContent

/-- A parse oracle on which every payload fails to parse, standing for a
payload of invalid JSON. -/
def cParseNone : List Char → Option DataVal := fun _ => none

/-- A parse oracle on which every payload parses to a frame whose delta
content is the single character a. -/
def cParseA : List Char → Option DataVal := fun _ => some ⟨some ['a'], none, 0⟩

/-- A concrete serializer for witnesses: print just the content field. -/
def cStringify : DataVal → List Char := fun d => d.content.getD []

/-- A concrete data line whose payload is the invalid JSON text x. -/
def lineX : List Char := "data: x".toList

/-- A concrete data line whose payload is the single character J. -/
def lineJ : List Char := "data: J".toList

/-- One upstream HTTP response as the retry fetcher inspects it: the status
code, the optional content-type header, and the body text. -/
structure Resp where
  status : Nat
  contentType : Option (List Char)
  body : List Char
deriving DecidableEq

/-- The outcome of one platform fetch call: a response, or a transport level
exception carried as an opaque tag. -/
inductive FetchResult
  | resp (r : Resp)
  | fail (e : Nat)
deriving DecidableEq

/-- The JavaScript expression reading the content-type header with empty
string fallback. -/
def ctOf (r : Resp) : List Char := r.contentType.getD []

/-- The ok field of a platform response: status in the 2xx range. -/
def respOk (r : Resp) : Bool := decide (200 ≤ r.status) && decide (r.status < 300)

/-- The lastError variable threaded through the retry loop. -/
inductive LastErr
  | noneYet
  | retryable (status : Nat) (ct : List Char) (bodyTrunc : List Char)
  | terminal (status : Nat)
  | transport (e : Nat)
deriving DecidableEq

/-- How the fetcher finished: a returned response or a thrown structured
error carrying the last error and the retry budget. -/
inductive RetryResult
  | returned (r : Resp)
  | thrown (lastError : LastErr) (retries : Nat)
deriving DecidableEq

/-- Observable trace of one fetcher call: how it finished, how many fetch
attempts were performed, and the sleep durations taken between attempts. -/
structure FetchOutcome where
  result : RetryResult
  attempts : Nat
  delays : List Nat
deriving DecidableEq

/-- The attempt loop of fetchWithRetry in src/main.ts lines 19 to 71 (the
same code appears in src/v1-file.ts lines 23 to 75), over the list of
remaining loop indices: a 2xx response is returned; a response with status
at least 500 or an html content-type is retryable and sleeps 1000 times the
one-based attempt index before the next attempt, or falls out of the loop
into the final throw on the last attempt; any other non-2xx response breaks
out of the loop and is thrown immediately; a transport exception is
retryable. -/
def fetchGo (oracle : Nat → FetchResult) (retries : Nat) :
    List Nat → LastErr → Nat → List Nat → FetchOutcome
  | [], le, _att, ds => ⟨.thrown le retries, _att, ds⟩
  | i :: rest, _le, att, ds =>
    match oracle i with
    | .resp r =>
      if respOk r then ⟨.returned r, att + 1, ds⟩
      else if decide (500 ≤ r.status) || strContains (ctOf r) htmlChars then
        if decide (i < retries - 1) then
          fetchGo oracle retries rest (.retryable r.status (ctOf r) (r.body.take 1000))
            (att + 1) (ds ++ [1000 * (i + 1)])
        else ⟨.thrown (.retryable r.status (ctOf r) (r.body.take 1000)) retries, att + 1, ds⟩
      else ⟨.thrown (.terminal r.status) retries, att + 1, ds⟩
    | .fail e =>
      if decide (i < retries - 1) then
        fetchGo oracle retries rest (.transport e) (att + 1) (ds ++ [1000 * (i + 1)])
      else ⟨.thrown (.transport e) retries, att + 1, ds⟩

/-- fetchWithRetry of src/main.ts and src/v1-file.ts: run the attempt loop
for indices 0 to retries - 1 with no last error, zero attempts and no
delays recorded. -/
def fetchWithRetry (oracle : Nat → FetchResult) (retries : Nat) : FetchOutcome :=
  fetchGo oracle retries (List.range retries) .noneYet 0 []

/-- The response copy built by src/unnamed/part_000 lines 38 to 46: same
status and body, content-type defaulted to application/json when absent. -/
def respCopyP0 (r : Resp) : Resp :=
  ⟨r.status, some (if ctOf r = [] then "application/json".toList else ctOf r), r.body⟩

/-- The attempt loop of fetchWithRetry in src/unnamed/part_000 lines 11 to
63: a response is retryable only when its content-type contains text/html
or its status is exactly 500; every response that is not retried, including
every other non-2xx response and a retryable one on the final attempt, is
returned as a rebuilt copy. -/
def fetchGoP0 (oracle : Nat → FetchResult) (retries : Nat) :
    List Nat → LastErr → Nat → List Nat → FetchOutcome
  | [], le, _att, ds => ⟨.thrown le retries, _att, ds⟩
  | i :: rest, _le, att, ds =>
    match oracle i with
    | .resp r =>
      if strContains (ctOf r) htmlChars || decide (r.status = 500) then
        if decide (i < retries - 1) then
          fetchGoP0 oracle retries rest (.retryable r.status (ctOf r) (r.body.take 1000))
            (att + 1) (ds ++ [1000 * (i + 1)])
        else ⟨.returned (respCopyP0 r), att + 1, ds⟩
      else ⟨.returned (respCopyP0 r), att + 1, ds⟩
    | .fail e =>
      if decide (i < retries - 1) then
        fetchGoP0 oracle retries rest (.transport e) (att + 1) (ds ++ [1000 * (i + 1)])
      else ⟨.thrown (.transport e) retries, att + 1, ds⟩

/-- fetchWithRetry of src/unnamed/part_000. -/
def fetchWithRetryP0 (oracle : Nat → FetchResult) (retries : Nat) : FetchOutcome :=
  fetchGoP0 oracle retries (List.range retries) .noneYet 0 []

/-- A concrete upstream that answers 500 on the first two attempts and 200
on the third. -/
def cOracle6 : Nat → FetchResult := fun n =>
  if n == 2 then .resp ⟨200, some ("application/json".toList), "ok".toList⟩
  else .resp ⟨500, some ("application/json".toList), "boom".toList⟩

/-- A concrete upstream that always answers 503 with a JSON content-type. -/
def cOracle503 : Nat → FetchResult := fun _ =>
  .resp ⟨503, some ("application/json".toList), "bad".toList⟩

/-- A concrete upstream that always answers 404 with a JSON content-type. -/
def cOracle404 : Nat → FetchResult := fun _ =>
  .resp ⟨404, some ("application/json".toList), "nf".toList⟩

/-- The response body sent on a models request, or the cached state serving
for it: 401 for a missing or malformed bearer header, a 200 body, or the
500 error path when the upstream fetch throws. -/
inductive ModelsResp
  | unauthorized
  | okBody (body : List Char)
  | serverError
deriving DecidableEq

/-- The module level cache variables of src/main.ts lines 11 to 12. -/
structure CacheState where
  cachedModels : Option (List Char)
  cachedModelsTimestamp : Int
deriving DecidableEq

/-- The cache time-to-live of one hour in milliseconds. -/
def CACHE_TTL : Int := 60 * 60 * 1000

/-- The refresh path of the models handler: fetch the model list with the
caller's own Authorization header, store it with the current timestamp, and
return it; on a thrown fetch, answer the 500 path with the cache
unchanged. -/
def refreshModels (fetchModels : List Char → Option (List Char)) (st : CacheState)
    (now : Int) (authHeader : List Char) : ModelsResp × CacheState :=
  match fetchModels authHeader with
  | some body => (.okBody body, ⟨some body, now⟩)
  | none => (.serverError, st)

/-- The GET models branch of handleRequest in src/main.ts lines 175 to 215
(same logic in src/v1-file.ts lines 260 to 305): reject a missing or
non-bearer Authorization header; serve the cached body when it is truthy
and younger than the TTL; otherwise refresh using the caller's header. -/
def handleModels (fetchModels : List Char → Option (List Char)) (st : CacheState)
    (now : Int) (authHeader : Option (List Char)) : ModelsResp × CacheState :=
  match authHeader with
  | none => (.unauthorized, st)
  | some a =>
    if strStartsWith a bearerLit = false then (.unauthorized, st)
    else
      match st.cachedModels with
      | some m =>
        if m ≠ [] ∧ now - st.cachedModelsTimestamp < CACHE_TTL then (.okBody m, st)
        else refreshModels fetchModels st now a
      | none => refreshModels fetchModels st now a

/-- A concrete bearer header naming token A. -/
def bearerA : List Char := "Bearer A".toList

/-- A concrete bearer header naming token B. -/
def bearerB : List Char := "Bearer B".toList

/-- A concrete upstream model list endpoint whose body is empty for token A
and the character x for every other token. -/
def cOracle10 : List Char → Option (List Char) :=
  fun t => if t = bearerA then some [] else some ['x']

/-- The terminal frames a stream session can write to the client sink: the
sentinel frame, the synthetic stream-error frame, and the synthetic timeout
frame. -/
inductive Frame
  | doneFrame
  | errFrame
  | timeoutFrame
deriving DecidableEq

/-- One primitive sink operation: write a frame, or perform the close. -/
inductive Act
  | write (f : Frame)
  | close
deriving DecidableEq

/-- One event recorded by the sink: a frame actually written, or the close
actually performed. -/
inductive Ev
  | wrote (f : Frame)
  | closed
deriving DecidableEq

/-- The client-facing writer of the TransformStream: whether it is still
accepting operations, and the log of operations that succeeded, in order. -/
structure Sink where
  isOpen : Bool
  log : List Ev
deriving DecidableEq

/-- Semantics of one sink operation: a write or a close on an open sink
succeeds and is logged; both reject on a closed sink (the result none
models the rejected promise the source catches). -/
def execAct : Act → Sink → Option Sink
  | .write f, s => if s.isOpen then some ⟨true, s.log ++ [.wrote f]⟩ else none
  | .close, s => if s.isOpen then some ⟨false, s.log ++ [.closed]⟩ else none

/-- A terminal routine: the current list of pending sink operations,
followed by the bodies of the enclosing catch handlers, outermost last. A
rejected operation abandons the rest of the current list and enters the
next handler; an empty final handler models a swallowed rejection. -/
abbrev Thread := List (List Act)

/-- One scheduler step of a routine: a finished routine or a successfully
completed list stops the routine; otherwise the next operation runs, and on
rejection control moves to the next handler. Each step is one suspension
point of the source (one awaited sink operation). -/
def stepT : Thread → Sink → Thread × Sink
  | [], s => ([], s)
  | [] :: _, s => ([], s)
  | (a :: as) :: hs, s =>
    match execAct a s with
    | some s2 => (as :: hs, s2)
    | none => (hs, s)

/-- Size of one pending operation list, counting its completion step. -/
def sizeSeg (seg : List Act) : Nat := seg.length + 1

/-- Number of scheduler steps a routine can still take. -/
def sizeT (t : Thread) : Nat := (t.map sizeSeg).sum

/-- Run two racing terminal routines to completion under a schedule: each
step runs one operation of the first routine when the schedule says true
(or the second routine is finished), of the second otherwise, modelling the
possible event-loop interleavings of the awaited operations. The fuel bound
only needs to exceed the total number of steps. -/
def run (fuel : Nat) (sched : List Bool) (t1 t2 : Thread) (s : Sink) : Sink :=
  match fuel with
  | 0 => s
  | fuel' + 1 =>
    match t1, t2 with
    | [], [] => s
    | [], _ :: _ => run fuel' sched.tail [] (stepT t2 s).1 (stepT t2 s).2
    | _ :: _, _ =>
      if sched.headD true || t2.isEmpty then
        run fuel' sched.tail (stepT t1 s).1 t2 (stepT t1 s).2
      else
        run fuel' sched.tail t1 (stepT t2 s).1 (stepT t2 s).2

/-- The natural completion path of handleStream in src/main.ts lines 129 to
141 with an empty trailing buffer (write the sentinel, close), its catch
handler in lines 160 to 167 (write the error frame, the sentinel, close),
the catch attached in handleRequest lines 277 to 290 which receives any
rejection of the former handler and retries the same writes, and whose own
rejections are swallowed. -/
def natThread : Thread :=
  [[.write .doneFrame, .close],
   [.write .errFrame, .write .doneFrame, .close],
   [.write .errFrame, .write .doneFrame, .close],
   []]

/-- The timeout callback of handleRequest in src/main.ts lines 263 to 275:
write the timeout error frame, the sentinel, close, with every rejection
swallowed by its catch. -/
def timerThread : Thread :=
  [[.write .timeoutFrame, .write .doneFrame, .close],
   []]

/-- The freshly opened client sink. -/
def sink0 : Sink := ⟨true, []⟩

/-- Recognizer of a logged sentinel frame write. -/
def isDoneEv : Ev → Bool
  | .wrote .doneFrame => true
  | _ => false

/-- Recognizer of a logged close. -/
def isCloseEv : Ev → Bool
  | .closed => true
  | _ => false

/-- How many sentinel frames the sink accepted. -/
def countDone (log : List Ev) : Nat := log.countP isDoneEv

/-- How many close operations the sink accepted. -/
def countClose (log : List Ev) : Nat := log.countP isCloseEv

/-- A routine whose pending operation list is nonempty and ends with the
close operation. -/
def SegClose : Thread → Prop
  | seg :: _ => seg ≠ [] ∧ seg.getLast? = some .close
  | [] => False

/-- Invariant tying the two routines to the sink: while the sink is open no
close has been logged and both routines still end their pending operations
with a close; once the sink is closed exactly one close has been logged. -/
def SinkInv (t1 t2 : Thread) (s : Sink) : Prop :=
  (s.isOpen = true → countClose s.log = 0 ∧ SegClose t1 ∧ SegClose t2) ∧
  (s.isOpen = false → countClose s.log = 1)

theorem strStartsWith_nil (p : List Char) : strStartsWith [] p = true → p = [] := by
  cases p with
  | nil => intro _; rfl
  | cons d ds => intro h; simp [strStartsWith] at h

theorem lcpLoop_of_startsWith (p c : List Char) (h : strStartsWith c p = true) :
    lcpLoop p c = p.length := by
  induction p generalizing c with
  | nil => cases c <;> rfl
  | cons a as ih =>
    cases c with
    | nil => simp [strStartsWith] at h
    | cons x xs =>
      simp only [strStartsWith, Bool.and_eq_true, beq_iff_eq] at h
      obtain ⟨rfl, h2⟩ := h
      simp [lcpLoop, ih xs h2]

theorem lcpLoop_take (p c : List Char) :
    c.take (lcpLoop p c) = p.take (lcpLoop p c) := by
  induction p generalizing c with
  | nil => cases c <;> rfl
  | cons a as ih =>
    cases c with
    | nil => rfl
    | cons b bs =>
      by_cases hab : a = b
      · subst hab
        simp [lcpLoop, List.take_succ_cons, ih bs]
      · simp [lcpLoop, hab]

theorem lcpLoop_le (p c : List Char) : lcpLoop p c ≤ p.length := by
  induction p generalizing c with
  | nil => cases c <;> simp [lcpLoop]
  | cons a as ih =>
    cases c with
    | nil => simp [lcpLoop]
    | cons b bs =>
      by_cases hab : a = b
      · subst hab
        simp only [lcpLoop, beq_self_eq_true, if_true, List.length_cons]
        exact Nat.succ_le_succ (ih bs)
      · simp [lcpLoop, hab]

theorem splitNl_ne_nil (l : List Char) : splitNl l ≠ [] := by
  cases l with
  | nil => simp [splitNl]
  | cons c cs =>
    by_cases h : c = '\n' <;> simp [splitNl, h]

theorem getLastD_irrel {α : Type} (l : List α) (h : l ≠ []) (d e : α) :
    l.getLastD d = l.getLastD e := by
  cases l with
  | nil => exact absurd rfl h
  | cons a l' => rfl

theorem cons_dropLast {α : Type} (a : α) (l : List α) (h : l ≠ []) :
    (a :: l).dropLast = a :: l.dropLast := by
  cases l with
  | nil => exact absurd rfl h
  | cons b l' => rfl

theorem cons_getLastD {α : Type} (a : α) (l : List α) (d : α) (h : l ≠ []) :
    (a :: l).getLastD d = l.getLastD d := by
  cases l with
  | nil => exact absurd rfl h
  | cons b l' => rfl

theorem dropLast_append_ne {α : Type} (A B : List α) (hB : B ≠ []) :
    (A ++ B).dropLast = A ++ B.dropLast := by
  induction A with
  | nil => rfl
  | cons a A' ih =>
    have hne : A' ++ B ≠ [] := by
      intro hcontra
      rcases List.append_eq_nil.mp hcontra with ⟨_, h2⟩
      exact hB h2
    calc (a :: (A' ++ B)).dropLast = a :: (A' ++ B).dropLast := cons_dropLast a _ hne
      _ = a :: (A' ++ B.dropLast) := by rw [ih]
      _ = (a :: A') ++ B.dropLast := rfl

theorem getLastD_append_ne {α : Type} (A B : List α) (d : α) (hB : B ≠ []) :
    (A ++ B).getLastD d = B.getLastD d := by
  induction A with
  | nil => rfl
  | cons a A' ih =>
    have hne : A' ++ B ≠ [] := by
      intro hcontra
      rcases List.append_eq_nil.mp hcontra with ⟨_, h2⟩
      exact hB h2
    calc (a :: (A' ++ B)).getLastD d = (A' ++ B).getLastD d := cons_getLastD a _ d hne
      _ = B.getLastD d := ih

theorem splitNl_cons_nl (cs : List Char) : splitNl ('\n' :: cs) = [] :: splitNl cs := by
  simp [splitNl]

theorem splitNl_cons_ne (c : Char) (cs : List Char) (h : ¬ c = '\n') :
    splitNl (c :: cs) = (c :: (splitNl cs).headD []) :: (splitNl cs).tail := by
  simp [splitNl, h]

theorem splitNl_append (X d : List Char) :
    splitNl (X ++ d) =
      (splitNl X).dropLast ++ splitNl ((splitNl X).getLastD [] ++ d) := by
  induction X with
  | nil => rfl
  | cons c xs ih =>
    by_cases hc : c = '\n'
    · subst hc
      have hS := splitNl_ne_nil xs
      rw [List.cons_append, splitNl_cons_nl, splitNl_cons_nl, ih,
        cons_dropLast _ _ hS, cons_getLastD _ _ _ hS, List.cons_append]
    · rcases hhd : splitNl xs with _ | ⟨s, ss⟩
      · exact absurd hhd (splitNl_ne_nil xs)
      rcases hss : ss with _ | ⟨t, ts⟩
      · subst hss
        have hxd : splitNl (xs ++ d) = splitNl (s ++ d) := by
          rw [ih, hhd]
          rfl
        rw [List.cons_append, splitNl_cons_ne c _ hc, hxd,
          splitNl_cons_ne c xs hc, hhd, List.headD_cons, List.tail_cons]
        rcases hsd : splitNl (s ++ d) with _ | ⟨u, us⟩
        · exact absurd hsd (splitNl_ne_nil _)
        have hfin : splitNl (c :: (s ++ d)) = (c :: u) :: us := by
          rw [splitNl_cons_ne c _ hc, hsd, List.headD_cons, List.tail_cons]
        simp [hfin, hsd]
      · subst hss
        have hxd : splitNl (xs ++ d) =
            s :: ((t :: ts).dropLast ++ splitNl ((t :: ts).getLastD [] ++ d)) := by
          rw [ih, hhd, cons_dropLast s (t :: ts) (by simp),
            cons_getLastD s (t :: ts) [] (by simp), List.cons_append]
        rw [List.cons_append, splitNl_cons_ne c _ hc, hxd,
          splitNl_cons_ne c xs hc, hhd, List.headD_cons, List.tail_cons,
          List.headD_cons, List.tail_cons,
          cons_dropLast (c :: s) (t :: ts) (by simp),
          cons_getLastD (c :: s) (t :: ts) [] (by simp), List.cons_append]

theorem splitNl_getLastD_no_nl (l : List Char) :
    '\n' ∉ (splitNl l).getLastD [] := by
  induction l with
  | nil => simp [splitNl]
  | cons c cs ih =>
    by_cases hc : c = '\n'
    · subst hc
      rw [splitNl_cons_nl, cons_getLastD _ _ _ (splitNl_ne_nil cs)]
      exact ih
    · rcases hhd : splitNl cs with _ | ⟨s, ss⟩
      · exact absurd hhd (splitNl_ne_nil cs)
      rcases hss : ss with _ | ⟨t, ts⟩
      · subst hss
        rw [splitNl_cons_ne c cs hc, hhd, List.headD_cons, List.tail_cons]
        rw [hhd] at ih
        intro hmem
        rcases List.mem_cons.mp hmem with h1 | h2
        · exact hc h1.symm
        · exact ih h2
      · subst hss
        rw [splitNl_cons_ne c cs hc, hhd, List.headD_cons, List.tail_cons,
          cons_getLastD (c :: s) (t :: ts) [] (by simp)]
        rw [hhd, cons_getLastD s (t :: ts) [] (by simp)] at ih
        exact ih

theorem splitNl_of_no_nl (l : List Char) (h : '\n' ∉ l) : splitNl l = [l] := by
  induction l with
  | nil => rfl
  | cons c cs ih =>
    have hc : ¬ c = '\n' := fun hcontra => h (hcontra ▸ List.mem_cons_self c cs)
    have hcs : '\n' ∉ cs := fun hmem => h (List.mem_cons_of_mem c hmem)
    have hbe : (c == '\n') = false := by simp [hc]
    simp [splitNl, hbe, ih hcs]

theorem feedMany_spec (chunks : List (List Char)) (buf : List Char)
    (hbuf : '\n' ∉ buf) : feedMany buf chunks = feed buf (joinAll chunks) := by
  induction chunks generalizing buf with
  | nil =>
    simp only [feedMany, joinAll, feed, List.append_nil, splitNl_of_no_nl buf hbuf]
    rfl
  | cons c cs ih =>
    have hb1 : '\n' ∉ (splitNl (buf ++ c)).getLastD [] := splitNl_getLastD_no_nl _
    have hrec := ih ((splitNl (buf ++ c)).getLastD []) hb1
    have hne2 : splitNl ((splitNl (buf ++ c)).getLastD [] ++ joinAll cs) ≠ [] :=
      splitNl_ne_nil _
    simp only [feedMany, feed, hrec, joinAll, Prod.mk.injEq]
    rw [← List.append_assoc buf c (joinAll cs), splitNl_append (buf ++ c) (joinAll cs),
      dropLast_append_ne _ _ hne2, getLastD_append_ne _ _ _ hne2]
    exact ⟨rfl, rfl⟩

/-- Claim C2: for every pair of strings where current starts with previous,
both delta normalizer variants (the common prefix scan of src/v1.ts and the
inline slice of src/main.ts processLine) return exactly the suffix of
current after the previous content. -/
theorem c2_lcp_suffix (p c : List Char) (h : strStartsWith c p = true) :
    getIncrementalContent p c = c.drop p.length ∧ newContentOf p c = c.drop p.length := by
  constructor
  · unfold getIncrementalContent
    rw [lcpLoop_of_startsWith p c h]
  · unfold newContentOf
    cases p with
    | nil => simp
    | cons a as => simp [h]

theorem c2_lcp_suffix_witness :
    strStartsWith ['a', 'b', 'c'] ['a', 'b'] = true ∧
      getIncrementalContent ['a', 'b'] ['a', 'b', 'c'] = ['c'] ∧
      newContentOf ['a', 'b'] ['a', 'b', 'c'] = ['c'] := by
  refine ⟨by decide, ?_⟩
  have h := c2_lcp_suffix ['a', 'b'] ['a', 'b', 'c'] (by decide)
  exact ⟨by rw [h.1]; decide, by rw [h.2]; decide⟩

/-- Claim C3 counterexample: with previous ab and current ax, current does
not start with previous, yet the common prefix normalizer of src/v1.ts
returns x instead of the whole current string ax, refuting the claim that
the delta normalizer always falls back to the entire current string. -/
theorem c3_lcp_not_full_fallback :
    strStartsWith ['a', 'x'] ['a', 'b'] = false ∧
      getIncrementalContent ['a', 'b'] ['a', 'x'] ≠ ['a', 'x'] := by
  decide

/-- Claim C3 (amended): when current does not start with previous, the inline
normalizer of src/main.ts (and src/v1-file.ts, src/unnamed/part_000) returns
the entire current string, while getIncrementalContent of src/v1.ts instead
returns current with the longest common prefix of the two strings removed;
both are total functions and never raise. -/
theorem c3_fallback (p c : List Char) (h : strStartsWith c p = false) :
    newContentOf p c = c ∧ getIncrementalContent p c = c.drop (lcpLoop p c) ∧
      c.take (lcpLoop p c) = p.take (lcpLoop p c) ∧ lcpLoop p c ≤ p.length := by
  refine ⟨?_, rfl, lcpLoop_take p c, lcpLoop_le p c⟩
  unfold newContentOf
  simp [h]

theorem c3_fallback_witness :
    strStartsWith ['a', 'x'] ['a', 'b'] = false ∧
      newContentOf ['a', 'b'] ['a', 'x'] = ['a', 'x'] := by
  refine ⟨by decide, ?_⟩
  have h := c3_fallback ['a', 'b'] ['a', 'x'] (by decide)
  rw [h.1]

/-- Claim C4 counterexample: src/unnamed/part_000 line 129 decodes each
byte chunk with a fresh non-streaming text decoder, so splitting the byte
encoding of one accented character and a newline (0xC3 0xA9 0x0A) between
the two bytes of the character makes each half decode to a replacement
character: the emitted line is two replacement characters instead of the
character, a different line sequence than feeding the same bytes as one
chunk, refuting the claim for this cited variant. -/
theorem c4_p0_byte_split_not_invariant :
    joinAllB [[0xC3], [0xA9, 0x0A]] = [0xC3, 0xA9, 0x0A] ∧
      (feedManyBytesP0 [[0xC3], [0xA9, 0x0A]]).1 = [[replChar, replChar]] ∧
      (feedBytesOnce [0xC3, 0xA9, 0x0A]).1 = [[Char.ofNat 0xE9]] ∧
      (feedManyBytesP0 [[0xC3], [0xA9, 0x0A]]).1 ≠ (feedBytesOnce [0xC3, 0xA9, 0x0A]).1 := by
  decide

/-- Claim C4 (amended): feeding any chunking of the decoded text through
the frame buffer (accumulate, split on newline, retain the trailing partial
segment) yields the same ordered sequence of complete lines, and the same
final retained fragment, as feeding the whole text as one chunk; this
covers every byte chunking for the variants that decode with one streaming
text decoder (src/main.ts lines 144 to 149, src/v1.ts, src/v1-file.ts),
whose decoding makes a byte chunking induce a chunking of the decoded text.
In src/unnamed/part_000, which decodes each chunk with a fresh
non-streaming decoder, a byte split inside a multi-byte character changes
the decoded text and the emitted line sequence. -/
theorem c4_chunk_invariance (chunks : List (List Char)) :
    feedMany [] chunks = feed [] (joinAll chunks) :=
  feedMany_spec chunks [] (by simp)

theorem nextPrev_self (p : List Char) : nextPrev p p = p := by
  unfold nextPrev
  split <;> rfl

/-- Claim C7 counterexample: the stream session of src/v1.ts lines 123 to
125 silently drops a complete data line whose payload fails JSON parsing
(the catch only logs), so the raw line is not forwarded to the client,
refuting the claim for this cited variant. -/
theorem c7_v1_drops_malformed :
    strStartsWith lineX dataColon = true ∧
      (v1HandleLine cParseNone cStringify lineX []).1 = [] := by
  decide

/-- Claim C7 (amended): in the src/main.ts (and src/v1-file.ts,
src/unnamed/part_000) stream session, a complete data line whose payload
fails JSON parsing is forwarded verbatim to the client sink, the normalizer
state is unchanged, and all subsequent lines are processed and delivered
exactly as they would have been; in the src/v1.ts variant such a line is
instead dropped (only logged) while subsequent valid frames are still
processed. -/
theorem c7_raw_passthrough (parse : List Char → Option DataVal)
    (stringify : DataVal → List Char) (previousContent line : List Char)
    (ls : List (List Char))
    (hdata : strStartsWith (trim line) dataColon = true)
    (hfail : parse (line.drop 6) = none) :
    handleLines parse stringify previousContent (line :: ls) =
      ((line ++ nl2) :: (handleLines parse stringify previousContent ls).1,
        (handleLines parse stringify previousContent ls).2) := by
  simp only [handleLines, hdata, if_true, processLine, hfail]
  rw [nextPrev_self]
  rfl

theorem c7_raw_passthrough_witness :
    handleLines cParseNone cStringify [] [lineX] = ([lineX ++ nl2], []) := by
  have h := c7_raw_passthrough cParseNone cStringify [] lineX []
    (by decide) (by rfl)
  rw [h]
  rfl

/-- Claim C8 counterexample: in src/unnamed/part_000 lines 72 to 91 the
rebuilt frame is written unconditionally, so a content-bearing frame whose
computed incremental suffix is empty still produces a downstream frame
(carrying an empty content), refuting the claim for this cited variant. -/
theorem c8_p0_emits_empty_delta :
    newContentOf ['a'] ['a'] = [] ∧
      (processLineP0 cParseA cStringify lineJ ['a']).1 = [dataColon ++ nl2] := by
  decide

/-- Claim C8 (amended): in the src/main.ts and src/v1-file.ts sessions a
content-bearing frame whose computed incremental suffix is empty produces
no downstream frame, and likewise in src/v1.ts; the src/unnamed/part_000
variant instead always emits the rebuilt frame, even with empty content. -/
theorem c8_empty_suffix_silent (parse : List Char → Option DataVal)
    (stringify : DataVal → List Char) (line previousContent : List Char)
    (d : DataVal) (c : List Char)
    (hp : parse (line.drop 6) = some d) (hc : d.content = some c) (hne : c ≠ []) :
    (newContentOf previousContent c = [] →
      (processLine parse stringify line previousContent).1 = []) ∧
      (getIncrementalContent previousContent c = [] →
        (v1HandleData stringify d previousContent).1 = []) := by
  constructor
  · intro hz
    simp only [processLine, hp, hc]
    simp [hne, hz]
  · intro hz
    simp only [v1HandleData, hc]
    simp [hne, hz]

theorem c8_empty_suffix_silent_witness :
    (processLine cParseA cStringify lineJ ['a']).1 = [] ∧
      (v1HandleData cStringify ⟨some ['a'], none, 0⟩ ['a']).1 = [] := by
  have h := c8_empty_suffix_silent cParseA cStringify lineJ ['a']
    ⟨some ['a'], none, 0⟩ ['a'] (by rfl) (by rfl) (by decide)
  exact ⟨h.1 (by decide), h.2 (by decide)⟩

/-- Claim C9 counterexample: in src/v1.ts the update of previousContent sits
inside the nonempty-increment branch (line 117), so after a content-bearing
frame whose increment is empty (current a, previous ab) the state keeps the
old value ab instead of the frame's cumulative content a, refuting the
claim for this cited variant. -/
theorem c9_v1_state_not_updated :
    (v1HandleLine cParseA cStringify lineJ ['a', 'b']).2 = ['a', 'b'] ∧
      (['a', 'b'] : List Char) ≠ ['a'] := by
  decide

/-- Claim C9 (amended): in the src/main.ts, src/v1-file.ts and
src/unnamed/part_000 sessions, processing a frame carrying truthy delta
content always sets the normalizer state to that frame's full current
cumulative content, whether or not a frame was emitted; in src/v1.ts the
state is updated only when a nonempty increment is emitted, and keeps its
old value when the increment is empty. -/
theorem c9_state_update (parse : List Char → Option DataVal)
    (stringify : DataVal → List Char) (line previousContent : List Char)
    (d : DataVal) (c : List Char)
    (hp : parse (line.drop 6) = some d) (hc : d.content = some c) (hne : c ≠ []) :
    (processLine parse stringify line previousContent).2 = c ∧
      (processLineP0 parse stringify line previousContent).2 = c ∧
      (getIncrementalContent previousContent c ≠ [] →
        (v1HandleData stringify d previousContent).2 = c) := by
  refine ⟨?_, ?_, ?_⟩
  · simp only [processLine, hp, hc]
    simp [hne]
  · simp only [processLineP0, hp, hc]
    simp [hne]
  · intro hz
    simp only [v1HandleData, hc]
    simp [hne, hz]

theorem c9_state_update_witness :
    (processLine cParseA cStringify lineJ []).2 = ['a'] ∧
      (processLineP0 cParseA cStringify lineJ []).2 = ['a'] ∧
      (v1HandleData cStringify ⟨some ['a'], none, 0⟩ []).2 = ['a'] := by
  have h := c9_state_update cParseA cStringify lineJ []
    ⟨some ['a'], none, 0⟩ ['a'] (by rfl) (by rfl) (by decide)
  exact ⟨h.1, h.2.1, h.2.2 (by decide)⟩

theorem fetchGo_att_le (oracle : Nat → FetchResult) (retries : Nat) :
    ∀ (idx : List Nat) (le : LastErr) (att : Nat) (ds : List Nat),
      att ≤ (fetchGo oracle retries idx le att ds).attempts := by
  intro idx
  induction idx with
  | nil => intro le att ds; exact Nat.le_refl att
  | cons i rest ih =>
    intro le att ds
    unfold fetchGo
    cases oracle i with
    | resp r =>
      by_cases h1 : respOk r = true
      · simp [h1]
      · simp only [h1]
        by_cases h2 : (decide (500 ≤ r.status) || strContains (ctOf r) htmlChars) = true
        · simp only [h2]
          by_cases h3 : decide (i < retries - 1) = true
          · simp only [h3, if_true]
            exact Nat.le_trans (Nat.le_succ att) (ih _ _ _)
          · simp [h3]
        · simp [h2]
    | fail e =>
      by_cases h3 : decide (i < retries - 1) = true
      · simp only [h3, if_true]
        exact Nat.le_trans (Nat.le_succ att) (ih _ _ _)
      · simp [h3]

theorem fetchGo_att_lt (oracle : Nat → FetchResult) (retries : Nat)
    (i : Nat) (rest : List Nat) (le : LastErr) (att : Nat) (ds : List Nat) :
    att + 1 ≤ (fetchGo oracle retries (i :: rest) le att ds).attempts := by
  unfold fetchGo
  cases oracle i with
  | resp r =>
    by_cases h1 : respOk r = true
    · simp [h1]
    · simp only [h1]
      by_cases h2 : (decide (500 ≤ r.status) || strContains (ctOf r) htmlChars) = true
      · simp only [h2]
        by_cases h3 : decide (i < retries - 1) = true
        · simp only [h3, if_true]
          exact fetchGo_att_le oracle retries rest _ _ _
        · simp [h3]
      · simp [h2]
  | fail e =>
    by_cases h3 : decide (i < retries - 1) = true
    · simp only [h3, if_true]
      exact fetchGo_att_le oracle retries rest _ _ _
    · simp [h3]

/-- Claim C5 counterexample: the fetchWithRetry of src/unnamed/part_000
classifies only status exactly 500 (or an html content-type) as retryable,
so a 503 response with a JSON content-type, although its status is at least
500, is returned after exactly one attempt with no retries and no delays,
refuting the claim for this cited variant. -/
theorem c5_p0_503_no_retry :
    (500 ≤ 503 ∧ strContains ("application/json".toList) htmlChars = false) ∧
      fetchWithRetryP0 cOracle503 3 =
        ⟨.returned ⟨503, some ("application/json".toList), "bad".toList⟩, 1, []⟩ := by
  decide

/-- Claim C5 (amended): in the src/main.ts and src/v1-file.ts fetcher, a
first response with status at least 500 or an html content-type is
retryable (a second attempt is performed), while any other non-2xx first
response is thrown immediately after exactly one attempt with no delays;
the src/unnamed/part_000 variant retries only on status exactly 500 or an
html content-type, and returns every other response, including any other
non-2xx status, immediately after the first attempt. -/
theorem c5_classification (oracle : Nat → FetchResult) (r : Resp)
    (h0 : oracle 0 = .resp r) (hok : respOk r = false) :
    ((decide (500 ≤ r.status) || strContains (ctOf r) htmlChars) = true →
      2 ≤ (fetchWithRetry oracle 3).attempts) ∧
    ((decide (500 ≤ r.status) || strContains (ctOf r) htmlChars) = false →
      fetchWithRetry oracle 3 = ⟨.thrown (.terminal r.status) 3, 1, []⟩) ∧
    ((strContains (ctOf r) htmlChars || decide (r.status = 500)) = false →
      fetchWithRetryP0 oracle 3 = ⟨.returned (respCopyP0 r), 1, []⟩) := by
  have hr : List.range 3 = [0, 1, 2] := rfl
  refine ⟨?_, ?_, ?_⟩
  · intro hretry
    unfold fetchWithRetry
    rw [hr]
    unfold fetchGo
    rw [h0]
    simp only [hok, Bool.false_eq_true, if_false, hretry, if_true]
    simp only [show decide ((0 : Nat) < 3 - 1) = true from rfl, if_true]
    exact fetchGo_att_lt oracle 3 1 [2] _ 1 _
  · intro hterm
    unfold fetchWithRetry
    rw [hr]
    unfold fetchGo
    rw [h0]
    simp [hok, hterm]
  · intro hterm
    unfold fetchWithRetryP0
    rw [hr]
    unfold fetchGoP0
    rw [h0]
    simp [hterm]

theorem c5_classification_witness :
    respOk ⟨404, some ("application/json".toList), "nf".toList⟩ = false ∧
      fetchWithRetry cOracle404 3 = ⟨.thrown (.terminal 404) 3, 1, []⟩ ∧
      2 ≤ (fetchWithRetry cOracle503 3).attempts := by
  have h404 := c5_classification cOracle404
    ⟨404, some ("application/json".toList), "nf".toList⟩ rfl (by decide)
  have h503 := c5_classification cOracle503
    ⟨503, some ("application/json".toList), "bad".toList⟩ rfl (by decide)
  exact ⟨by decide, h404.2.1 (by decide), h503.1 (by decide)⟩

/-- Claim C6: when the upstream answers 500 on the first two attempts and a
2xx response on the third, fetchWithRetry with a budget of three attempts
returns that successful response, performs exactly three fetch attempts,
and sleeps 1000 then 2000 milliseconds between consecutive attempts. -/
theorem c6_retry_budget (oracle : Nat → FetchResult) (ct0 b0 ct1 b1 : List Char)
    (r2 : Resp) (hc0 : oracle 0 = .resp ⟨500, some ct0, b0⟩)
    (hc1 : oracle 1 = .resp ⟨500, some ct1, b1⟩)
    (hc2 : oracle 2 = .resp r2) (hok : respOk r2 = true) :
    fetchWithRetry oracle 3 = ⟨.returned r2, 3, [1000, 2000]⟩ := by
  have hr : List.range 3 = [0, 1, 2] := rfl
  unfold fetchWithRetry
  rw [hr]
  unfold fetchGo
  rw [hc0]
  norm_num [respOk]
  unfold fetchGo
  rw [hc1]
  norm_num [respOk]
  unfold fetchGo
  rw [hc2]
  simp [hok]

theorem c6_retry_budget_witness :
    fetchWithRetry cOracle6 3 =
      ⟨.returned ⟨200, some ("application/json".toList), "ok".toList⟩, 3, [1000, 2000]⟩ := by
  exact c6_retry_budget cOracle6 ("application/json".toList) ("boom".toList)
    ("application/json".toList) ("boom".toList)
    ⟨200, some ("application/json".toList), "ok".toList⟩ rfl rfl rfl (by decide)

/-- Claim C10 counterexample: when the upstream returns an empty body for
the populating token, the stored empty string is falsy, so a second bearer
request inside the TTL window bypasses the cache and refetches with its own
token; the two requests observe different bodies, refuting the claim that
the body served within the TTL never depends on the Authorization
header. -/
theorem c10_empty_cache_token_dependent :
    handleModels cOracle10 ⟨none, 0⟩ 0 (some bearerA) = (.okBody [], ⟨some [], 0⟩) ∧
      handleModels cOracle10 ⟨some [], 0⟩ 1 (some bearerB) = (.okBody ['x'], ⟨some ['x'], 1⟩) ∧
      strStartsWith bearerA bearerLit = true ∧ strStartsWith bearerB bearerLit = true ∧
      (1 : Int) - 0 < CACHE_TTL ∧ ModelsResp.okBody ['x'] ≠ .okBody [] := by
  decide

/-- Claim C10 (amended): while the model-list cache holds a nonempty body
within its TTL, the body returned by a GET on the models path does not
depend on the caller's Authorization header: any two requests whose headers
start with the bearer marker receive the identical cached body, which was
fetched using the token of whichever request populated the cache; when the
cached body is the empty string, the truthiness test bypasses the cache and
each request refetches with its own token. -/
theorem c10_cache_noninterference (fetchModels : List Char → Option (List Char))
    (st : CacheState) (m : List Char) (now : Int) (a1 a2 : List Char)
    (t0 now1 now2 : Int) (b : List Char)
    (hb1 : strStartsWith a1 bearerLit = true) (hb2 : strStartsWith a2 bearerLit = true) :
    (st.cachedModels = some m → m ≠ [] → now - st.cachedModelsTimestamp < CACHE_TTL →
      handleModels fetchModels st now (some a1) = (.okBody m, st) ∧
        handleModels fetchModels st now (some a2) = (.okBody m, st)) ∧
    (fetchModels a1 = some b → b ≠ [] → now2 - now1 < CACHE_TTL →
      handleModels fetchModels ⟨none, t0⟩ now1 (some a1) = (.okBody b, ⟨some b, now1⟩) ∧
        handleModels fetchModels ⟨some b, now1⟩ now2 (some a2) = (.okBody b, ⟨some b, now1⟩)) := by
  constructor
  · intro hcm hm hfresh
    constructor
    · simp [handleModels, hb1, hcm, hm, hfresh]
    · simp [handleModels, hb2, hcm, hm, hfresh]
  · intro hfa hb hfresh
    constructor
    · simp [handleModels, hb1, refreshModels, hfa]
    · simp [handleModels, hb2, hb, hfresh]

theorem c10_cache_noninterference_witness :
    handleModels (fun _ => some ['m']) ⟨some ['m'], 0⟩ 1 (some bearerA) =
        (.okBody ['m'], ⟨some ['m'], 0⟩) ∧
      handleModels (fun _ => some ['m']) ⟨some ['m'], 0⟩ 1 (some bearerB) =
        (.okBody ['m'], ⟨some ['m'], 0⟩) ∧
      handleModels (fun _ => some ['m']) ⟨none, 0⟩ 5 (some bearerA) =
        (.okBody ['m'], ⟨some ['m'], 5⟩) ∧
      handleModels (fun _ => some ['m']) ⟨some ['m'], 5⟩ 6 (some bearerB) =
        (.okBody ['m'], ⟨some ['m'], 5⟩) := by
  have h := c10_cache_noninterference (fun _ => some ['m']) ⟨some ['m'], 0⟩ ['m'] 1
    bearerA bearerB 0 5 6 ['m'] (by decide) (by decide)
  have ha := h.1 rfl (by decide) (by decide)
  have hbv := h.2 rfl (by decide) (by decide)
  exact ⟨ha.1, ha.2, hbv.1, hbv.2⟩

theorem stepT_size (t : Thread) (s : Sink) (h : t ≠ []) :
    sizeT (stepT t s).1 < sizeT t := by
  rcases t with _ | ⟨seg, hs⟩
  · exact absurd rfl h
  rcases seg with _ | ⟨a, as⟩
  · simp [stepT, sizeT, sizeSeg]
  · rcases hE : execAct a s with _ | s2 <;>
      simp only [stepT, hE, sizeT, List.map_cons, List.sum_cons, sizeSeg,
        List.length_cons] <;>
      omega

theorem stepT_pres_fst (t1 t2 : Thread) (s : Sink) (h : SinkInv t1 t2 s) :
    SinkInv (stepT t1 s).1 t2 (stepT t1 s).2 := by
  rcases t1 with _ | ⟨seg, hs⟩
  · exact h
  rcases seg with _ | ⟨a, as⟩
  · refine ⟨fun ho => absurd rfl ((h.1 ho).2.1.1), h.2⟩
  · by_cases ho : s.isOpen = true
    · obtain ⟨hc0, ⟨hne, hlast⟩, hother⟩ := h.1 ho
      cases a with
      | write f =>
        have hstep : stepT ((Act.write f :: as) :: hs) s =
            (as :: hs, ⟨true, s.log ++ [Ev.wrote f]⟩) := by
          simp [stepT, execAct, ho]
        rw [hstep]
        have hasne : as ≠ [] := by
          intro hcontra
          subst hcontra
          simp at hlast
        refine ⟨fun _ => ⟨?_, ⟨hasne, ?_⟩, hother⟩, fun hcl => by simp at hcl⟩
        · simp only [countClose, List.countP_append] at hc0 ⊢
          simp [isCloseEv, hc0]
        · rcases as with _ | ⟨x, xs⟩
          · exact absurd rfl hasne
          · rw [← hlast]
            exact (List.getLast?_cons_cons).symm
      | close =>
        have hstep : stepT ((Act.close :: as) :: hs) s =
            (as :: hs, ⟨false, s.log ++ [Ev.closed]⟩) := by
          simp [stepT, execAct, ho]
        rw [hstep]
        refine ⟨fun hcontra => by simp at hcontra, fun _ => ?_⟩
        simp only [countClose, List.countP_append] at hc0 ⊢
        simp [isCloseEv, hc0]
    · have hcl : s.isOpen = false := by
        revert ho
        cases s.isOpen <;> simp
      have hstep : stepT ((a :: as) :: hs) s = (hs, s) := by
        cases a <;> simp [stepT, execAct, hcl]
      rw [hstep]
      exact ⟨fun ho2 => absurd ho2 (by simp [hcl]), h.2⟩

theorem sinkInv_swap (t1 t2 : Thread) (s : Sink) (h : SinkInv t1 t2 s) :
    SinkInv t2 t1 s := by
  refine ⟨fun ho => ?_, h.2⟩
  obtain ⟨a, b, c⟩ := h.1 ho
  exact ⟨a, c, b⟩

theorem stepT_pres_snd (t1 t2 : Thread) (s : Sink) (h : SinkInv t1 t2 s) :
    SinkInv t1 (stepT t2 s).1 (stepT t2 s).2 :=
  sinkInv_swap _ _ _ (stepT_pres_fst t2 t1 s (sinkInv_swap _ _ _ h))

theorem sizeT_eq_zero (t : Thread) (h : sizeT t = 0) : t = [] := by
  rcases t with _ | ⟨seg, hs⟩
  · rfl
  · simp [sizeT, sizeSeg] at h

theorem run_close (fuel : Nat) :
    ∀ (sched : List Bool) (t1 t2 : Thread) (s : Sink),
      sizeT t1 + sizeT t2 ≤ fuel → SinkInv t1 t2 s →
      countClose (run fuel sched t1 t2 s).log = 1 := by
  induction fuel with
  | zero =>
    intro sched t1 t2 s hsz hinv
    have ht1 : t1 = [] := sizeT_eq_zero t1 (by omega)
    have ht2 : t2 = [] := sizeT_eq_zero t2 (by omega)
    subst ht1
    subst ht2
    simp only [run]
    by_cases ho : s.isOpen = true
    · exact absurd (hinv.1 ho).2.1 (fun hcontra => hcontra)
    · exact hinv.2 (by revert ho; cases s.isOpen <;> simp)
  | succ n ih =>
    intro sched t1 t2 s hsz hinv
    rcases ht1 : t1 with _ | ⟨seg1, hs1⟩
    · rcases ht2 : t2 with _ | ⟨seg2, hs2⟩
      · simp only [run]
        by_cases ho : s.isOpen = true
        · subst ht1
          exact absurd (hinv.1 ho).2.1 (fun hcontra => hcontra)
        · exact hinv.2 (by revert ho; cases s.isOpen <;> simp)
      · subst ht1 ht2
        simp only [run]
        apply ih
        · have hdec := stepT_size (seg2 :: hs2) s (by simp)
          have h0 : sizeT ([] : Thread) = 0 := rfl
          rw [h0] at hsz ⊢
          omega
        · exact stepT_pres_snd _ _ _ hinv
    · subst ht1
      simp only [run]
      by_cases hb : (sched.headD true || t2.isEmpty) = true
      · rw [if_pos hb]
        apply ih
        · have hdec := stepT_size (seg1 :: hs1) s (by simp)
          omega
        · exact stepT_pres_fst _ _ _ hinv
      · rw [if_neg hb]
        have ht2ne : t2 ≠ [] := by
          intro hcontra
          subst hcontra
          simp at hb
        apply ih
        · have hdec := stepT_size t2 s ht2ne
          omega
        · exact stepT_pres_snd _ _ _ hinv

/-- Claim C1 counterexample: when the natural end-of-stream path and the
timer expiry path interleave at their awaited writes (the timer writes its
error frame, the natural path then writes its sentinel while the sink is
still open, the timer then writes its own sentinel), the client sink
accepts the sentinel frame twice, refuting the exactly-once claim for
racing terminal triggers; the close still succeeds only once. -/
theorem c1_race_double_done :
    countDone (run 10 [false, true, false] natThread timerThread sink0).log = 2 ∧
      countClose (run 10 [false, true, false] natThread timerThread sink0).log = 1 := by
  decide

/-- Claim C1 (amended): in the src/main.ts stream session the sink close
succeeds exactly once under every interleaving of the natural completion
path and the timer path, because every later write and close rejects on the
closed sink and the rejections are swallowed; the sentinel frame is
accepted exactly once whenever the two terminal triggers are serialized
(either routine runs to completion before the other starts, or the timer is
cancelled), but when the triggers interleave the sentinel can be accepted
twice. -/
theorem c1_terminal_emission (fuel : Nat) (sched : List Bool)
    (hfuel : sizeT natThread + sizeT timerThread ≤ fuel) :
    countClose (run fuel sched natThread timerThread sink0).log = 1 ∧
      countDone (run 20 [] natThread timerThread sink0).log = 1 ∧
      countClose (run 20 [] natThread timerThread sink0).log = 1 ∧
      countDone (run 20 [false, false, false, false] natThread timerThread sink0).log = 1 ∧
      countClose (run 20 [false, false, false, false] natThread timerThread sink0).log = 1 ∧
      countDone (run 20 [] natThread [] sink0).log = 1 ∧
      countClose (run 20 [] natThread [] sink0).log = 1 := by
  refine ⟨?_, by decide, by decide, by decide, by decide, by decide, by decide⟩
  refine run_close fuel sched natThread timerThread sink0 hfuel ?_
  exact ⟨fun _ => ⟨rfl, ⟨by decide, by decide⟩, ⟨by decide, by decide⟩⟩,
    fun hcl => by simp [sink0] at hcl⟩

theorem c1_terminal_emission_witness :
    sizeT natThread + sizeT timerThread ≤ 20 ∧
      countClose (run 20 [] natThread timerThread sink0).log = 1 := by
  exact ⟨by decide, (c1_terminal_emission 20 [] (by decide)).1⟩

end Qwen
